import Mathlib

/-!
# Verification of the `aq` TOML parsing engine (`parse/toml/toml.go`)

A shallow embedding of the parser in `src/parse/toml/toml.go`.  Go byte
strings are modelled as `List Char` (all inputs of interest are ASCII), the
AST (`Table` / `Array` / `Value`) as the inductive `Node` with tables as
insertion-ordered association lists, and the parser's mutable `cur *Table`
cursor as a path of steps from the root.  Go functions keep their source
names.  A Go runtime panic (index/slice out of range) is modelled by an
explicit outcome (`PErr.panicked` / `PRes.panicRes`): the Go code can reach
`parts[len(parts)-1]` with an empty slice, and `content[1:0]` slicing.

Go standard-library calls (`strings.*`, `strconv.*`, `time.Parse`) are
modelled by hand; each model carries a comment saying what is simplified.
General recursion that Go performs on syntactically smaller substrings
(`parseValue` → `parseArrayToken` → `parseValue`) is driven by an explicit
structural fuel parameter so that every definition is computable and
kernel-reducible; exhausted fuel yields the distinct error message
"parse fuel exhausted", which never arises on the concrete inputs below.
-/

set_option maxHeartbeats 1000000
set_option maxRecDepth 100000

namespace AqToml

/-- Go strings, as lists of characters (inputs of interest are ASCII). -/
abbrev GoStr := List Char

/-! ## Modelled `strings` standard-library helpers -/

/-- Models Go `unicode.IsSpace` on the ASCII range used by `strings.TrimSpace`
(space, tab, newline, carriage return, vertical tab, form feed); non-ASCII
Unicode spaces are not modelled. -/
def isGoSpace (c : Char) : Bool :=
  c = ' ' || c = '\t' || c = '\n' || c = '\r' || c = '\x0b' || c = '\x0c'

/-- Models `strings.TrimSpace`. -/
def trimSpace (s : GoStr) : GoStr :=
  ((s.dropWhile isGoSpace).reverse.dropWhile isGoSpace).reverse

/-- Loop of the `strings.HasPrefix` model, recursing on the prefix (so
that it reduces even when the subject has a symbolic tail). -/
def startsWithAux : GoStr → GoStr → Bool
  | [], _ => true
  | _ :: _, [] => false
  | p :: ps, c :: s => c = p && startsWithAux ps s

/-- Models `strings.HasPrefix s pre`. -/
def startsWith (s pre : GoStr) : Bool := startsWithAux pre s

/-- Models `strings.HasSuffix s suf`. -/
def endsWith (s suf : GoStr) : Bool :=
  startsWith s.reverse suf.reverse

/-- Models `strings.Contains s sub`. -/
def containsSub : GoStr → GoStr → Bool
  | s, sub =>
    if startsWith s sub then true
    else
      match s with
      | [] => false
      | _ :: rest => containsSub rest sub

/-- Models `strings.Index s sub` (`none` for Go's `-1`). -/
def indexOfSub : GoStr → GoStr → Option Nat
  | s, sub =>
    if startsWith s sub then some 0
    else
      match s with
      | [] => none
      | _ :: rest => (indexOfSub rest sub).map (· + 1)

/-- Models ASCII case folding of a character, as used by `strings.EqualFold`
on the ASCII inputs of interest. -/
def toLowerAscii (c : Char) : Char :=
  if 'A' ≤ c ∧ c ≤ 'Z' then Char.ofNat (c.toNat + 32) else c

/-- Models `strings.EqualFold` (ASCII only). -/
def equalFold (a b : GoStr) : Bool :=
  a.map toLowerAscii = b.map toLowerAscii

/-! ## AST definitions (`Kind`/`ValueKind`, `Node`, `Table`, `Array`, `Value`)

The source's `ValueKind` is a string type with ten fixed constants
(`tomlValueKinds`); they are modelled as an enumeration.  `Table.Items` is a
Go map; bindings are modelled as an insertion-ordered association list
(iteration order of the map is never semantically relevant to the claims;
lookup and update are by key). -/

inductive VKind where
  | vString | vInt | vFloat | vBool | vDatetime
  | vLocalDate | vLocalTime | vLocalDatetime
  | vTable | vArray
deriving DecidableEq, Repr

/-- Payload of a scalar `Value` node.  Floats are carried symbolically
(`GoFloat`): no claim inspects a float's numeric value.  Date/time payloads
keep the accepted literal text: no claim inspects the parsed instant. -/
inductive GoFloat where
  | inf | neginf | nan
  | finite (repr : GoStr)
deriving DecidableEq, Repr

inductive Payload where
  | str (s : GoStr)
  | int (i : Int)
  | bool (b : Bool)
  | float (f : GoFloat)
  | datetime (repr : GoStr)
deriving DecidableEq, Repr

/-- The `Node` interface with its three implementations: `Table` (association
list of bindings), `Array` (element list), `Value` (kind + payload). -/
inductive Node where
  | table (items : List (GoStr × Node))
  | arr (elems : List Node)
  | value (k : VKind) (p : Payload)

abbrev Items := List (GoStr × Node)

/-- The `Kind()` method: `(*Table).Kind() = "table"`, `(*Array).Kind() =
"array"`, `(*Value).Kind() = v.Type`. -/
def Node.kind : Node → VKind
  | .table _ => .vTable
  | .arr _ => .vArray
  | .value k _ => k

/-- Map lookup `t.Items[k]` (first binding of the key). -/
def lookupItem : Items → GoStr → Option Node
  | [], _ => none
  | (k', v) :: rest, k => if k' = k then some v else lookupItem rest k

/-- Map update `t.Items[k] = v`: replaces an existing binding in place,
otherwise appends. -/
def setItem : Items → GoStr → Node → Items
  | [], k, v => [(k, v)]
  | (k', v') :: rest, k, v =>
    if k' = k then (k, v) :: rest else (k', v') :: setItem rest k v

/-- A step of the parser's `cur` cursor path: a table key or an array index. -/
inductive Step where
  | key (k : GoStr)
  | idx (n : Nat)

/-- Reads the node addressed by a cursor path. -/
def getAt : Node → List Step → Option Node
  | n, [] => some n
  | .table items, .key k :: rest =>
    match lookupItem items k with
    | some c => getAt c rest
    | none => none
  | .arr es, .idx i :: rest =>
    match es.get? i with
    | some c => getAt c rest
    | none => none
  | _, _ => none

/-- Replaces the node addressed by a cursor path (identity on a dangling
path; cursor paths produced by the parser always resolve). -/
def setAt : Node → List Step → Node → Node
  | _, [], v => v
  | .table items, .key k :: rest, v =>
    match lookupItem items k with
    | some c => .table (setItem items k (setAt c rest v))
    | none => .table items
  | .arr es, .idx i :: rest, v =>
    match es.get? i with
    | some c => .arr (es.set i (setAt c rest v))
    | none => .arr es
  | n, _, _ => n

/-! ## Key-path resolver (`parseKeyParts`) -/

/-- Loop of `parseKeyParts`: character scan with quote state (`inQuote`),
escape flag (basic-quoted segments only), current segment accumulator and
emitted parts. -/
def parseKeyPartsAux (inQuote : Option Char) (escape : Bool)
    (cur : GoStr) (parts : List GoStr) : GoStr → Except GoStr (List GoStr)
  | [] =>
    if inQuote.isSome then .error "unterminated quoted key".data
    else
      let last := trimSpace cur
      .ok (if last ≠ [] then parts ++ [last] else parts)
  | ch :: rest =>
    match inQuote with
    | some q =>
      if q = '"' ∧ ch = '\\' ∧ escape = false then
        parseKeyPartsAux (some q) true cur parts rest
      else if escape then
        parseKeyPartsAux (some q) false (cur ++ [ch]) parts rest
      else if ch = q then
        parseKeyPartsAux none false cur parts rest
      else
        parseKeyPartsAux (some q) false (cur ++ [ch]) parts rest
    | none =>
      if ch = '"' ∨ ch = '\'' then
        if cur ≠ [] ∧ trimSpace cur ≠ [] then
          .error "invalid quoted key position".data
        else
          parseKeyPartsAux (some ch) escape [] parts rest
      else if ch = '.' then
        let part := trimSpace cur
        parseKeyPartsAux none escape []
          (if part ≠ [] then parts ++ [part] else parts) rest
      else
        parseKeyPartsAux none escape (cur ++ [ch]) parts rest

/-- `parseKeyParts` from the source: splits a key expression into segments,
honoring quoted segments.  Note it can return an empty list (`""` or a
fully quoted empty key) without error. -/
def parseKeyParts (s : GoStr) : Except GoStr (List GoStr) :=
  parseKeyPartsAux none false [] [] s

/-! ## Quote-aware scanners

Each of `stripCommentPreserveStrings`, `findUnquotedEqual`, the depth
scanner of `consumeValue`, and `splitTopLevel` carries the same four-flag
quote state (`inBasic`, `basicMulti`, `inLiteral`, `literalMulti`); each
Go loop is ported separately. -/

/-- `stripCommentPreserveStrings` loop.  In a basic string a backslash
copies itself and the next character; a `#` outside every quoted region
terminates the output. -/
def stripCommentAux : Nat → Bool → Bool → Bool → Bool → GoStr → GoStr
  | 0, _, _, _, _, _ => []
  | _ + 1, _, _, _, _, [] => []
  | fuel + 1, inBasic, basicMulti, inLiteral, literalMulti, ch :: rest =>
    if inBasic then
      if ch = '\\' then
        match rest with
        | c2 :: rest2 =>
          '\\' :: c2 :: stripCommentAux fuel inBasic basicMulti inLiteral literalMulti rest2
        | [] =>
          -- a trailing backslash falls through to the plain-write case
          ['\\']
      else if basicMulti then
        match ch, rest with
        | '"', '"' :: '"' :: rest3 =>
          '"' :: '"' :: '"' :: stripCommentAux fuel false false inLiteral literalMulti rest3
        | _, _ => ch :: stripCommentAux fuel inBasic basicMulti inLiteral literalMulti rest
      else if ch = '"' then
        ch :: stripCommentAux fuel false basicMulti inLiteral literalMulti rest
      else
        ch :: stripCommentAux fuel inBasic basicMulti inLiteral literalMulti rest
    else if inLiteral then
      if literalMulti then
        match ch, rest with
        | '\'', '\'' :: '\'' :: rest3 =>
          '\'' :: '\'' :: '\'' :: stripCommentAux fuel inBasic basicMulti false false rest3
        | _, _ => ch :: stripCommentAux fuel inBasic basicMulti inLiteral literalMulti rest
      else if ch = '\'' then
        ch :: stripCommentAux fuel inBasic basicMulti false literalMulti rest
      else
        ch :: stripCommentAux fuel inBasic basicMulti inLiteral literalMulti rest
    else
      match ch, rest with
      | '"', '"' :: '"' :: rest3 =>
        '"' :: '"' :: '"' :: stripCommentAux fuel true true inLiteral literalMulti rest3
      | '"', _ => '"' :: stripCommentAux fuel true false inLiteral literalMulti rest
      | '\'', '\'' :: '\'' :: rest3 =>
        '\'' :: '\'' :: '\'' :: stripCommentAux fuel inBasic basicMulti true true rest3
      | '\'', _ => '\'' :: stripCommentAux fuel inBasic basicMulti true false rest
      | '#', _ => []
      | _, _ => ch :: stripCommentAux fuel inBasic basicMulti inLiteral literalMulti rest

/-- `stripCommentPreserveStrings` from the source. -/
def stripCommentPreserveStrings (s : GoStr) : GoStr :=
  stripCommentAux (s.length + 1) false false false false s

/-- `findUnquotedEqual` loop, tracking the byte position.  Inside a basic
string a backslash skips the next character. -/
def findUnquotedEqualAux : Nat → Bool → Bool → Bool → Bool → Nat → GoStr → Option Nat
  | 0, _, _, _, _, _, _ => none
  | _ + 1, _, _, _, _, _, [] => none
  | fuel + 1, inBasic, basicMulti, inLiteral, literalMulti, pos, ch :: rest =>
    if inBasic then
      if ch = '\\' then
        match rest with
        | _ :: rest2 => findUnquotedEqualAux fuel inBasic basicMulti inLiteral literalMulti (pos + 2) rest2
        | [] => none
      else if basicMulti then
        match ch, rest with
        | '"', '"' :: '"' :: rest3 =>
          findUnquotedEqualAux fuel false false inLiteral literalMulti (pos + 3) rest3
        | _, _ => findUnquotedEqualAux fuel inBasic basicMulti inLiteral literalMulti (pos + 1) rest
      else if ch = '"' then
        findUnquotedEqualAux fuel false basicMulti inLiteral literalMulti (pos + 1) rest
      else
        findUnquotedEqualAux fuel inBasic basicMulti inLiteral literalMulti (pos + 1) rest
    else if inLiteral then
      if literalMulti then
        match ch, rest with
        | '\'', '\'' :: '\'' :: rest3 =>
          findUnquotedEqualAux fuel inBasic basicMulti false false (pos + 3) rest3
        | _, _ => findUnquotedEqualAux fuel inBasic basicMulti inLiteral literalMulti (pos + 1) rest
      else if ch = '\'' then
        findUnquotedEqualAux fuel inBasic basicMulti false literalMulti (pos + 1) rest
      else
        findUnquotedEqualAux fuel inBasic basicMulti inLiteral literalMulti (pos + 1) rest
    else
      match ch, rest with
      | '"', '"' :: '"' :: rest3 =>
        findUnquotedEqualAux fuel true true inLiteral literalMulti (pos + 3) rest3
      | '"', _ => findUnquotedEqualAux fuel true false inLiteral literalMulti (pos + 1) rest
      | '\'', '\'' :: '\'' :: rest3 =>
        findUnquotedEqualAux fuel inBasic basicMulti true true (pos + 3) rest3
      | '\'', _ => findUnquotedEqualAux fuel inBasic basicMulti true false (pos + 1) rest
      | '=', _ => some pos
      | _, _ => findUnquotedEqualAux fuel inBasic basicMulti inLiteral literalMulti (pos + 1) rest

/-- `findUnquotedEqual` from the source (`none` for Go's `-1`). -/
def findUnquotedEqual (s : GoStr) : Option Nat :=
  findUnquotedEqualAux (s.length + 1) false false false false 0 s

/-- `splitTopLevel` loop: accumulates the current piece, tracking quote
state and the two bracket depths (`[`/`]` and the brace pair), and emits a
trimmed piece at each separator occurring at depth zero outside quotes. -/
def splitTopLevelAux : Nat → Char → Bool → Bool → Bool → Bool →
    Int → Int → GoStr → List GoStr → GoStr → List GoStr
  | 0, _, _, _, _, _, _, _, _, parts, _ => parts
  | _ + 1, _, _, _, _, _, _, _, cur, parts, [] =>
    if cur.length > 0 then parts ++ [trimSpace cur] else parts
  | fuel + 1, sep, inBasic, basicMulti, inLiteral, literalMulti, depthB, depthC, cur, parts, ch :: rest =>
    if inBasic then
      if ch = '\\' then
        match rest with
        | c2 :: rest2 =>
          splitTopLevelAux fuel sep inBasic basicMulti inLiteral literalMulti
            depthB depthC (cur ++ ['\\', c2]) parts rest2
        | [] =>
          -- Go drops a trailing backslash here (`i++` past the end writes nothing)
          if cur.length > 0 then parts ++ [trimSpace cur] else parts
      else if basicMulti then
        match ch, rest with
        | '"', '"' :: '"' :: rest3 =>
          splitTopLevelAux fuel sep false false inLiteral literalMulti
            depthB depthC (cur ++ ['"', '"', '"']) parts rest3
        | _, _ =>
          splitTopLevelAux fuel sep inBasic basicMulti inLiteral literalMulti
            depthB depthC (cur ++ [ch]) parts rest
      else if ch = '"' then
        splitTopLevelAux fuel sep false basicMulti inLiteral literalMulti
          depthB depthC (cur ++ [ch]) parts rest
      else
        splitTopLevelAux fuel sep inBasic basicMulti inLiteral literalMulti
          depthB depthC (cur ++ [ch]) parts rest
    else if inLiteral then
      if literalMulti then
        match ch, rest with
        | '\'', '\'' :: '\'' :: rest3 =>
          splitTopLevelAux fuel sep inBasic basicMulti false false
            depthB depthC (cur ++ ['\'', '\'', '\'']) parts rest3
        | _, _ =>
          splitTopLevelAux fuel sep inBasic basicMulti inLiteral literalMulti
            depthB depthC (cur ++ [ch]) parts rest
      else if ch = '\'' then
        splitTopLevelAux fuel sep inBasic basicMulti false literalMulti
          depthB depthC (cur ++ [ch]) parts rest
      else
        splitTopLevelAux fuel sep inBasic basicMulti inLiteral literalMulti
          depthB depthC (cur ++ [ch]) parts rest
    else
      match ch, rest with
      | '"', '"' :: '"' :: rest3 =>
        splitTopLevelAux fuel sep true true inLiteral literalMulti
          depthB depthC (cur ++ ['"', '"', '"']) parts rest3
      | '"', _ =>
        splitTopLevelAux fuel sep true false inLiteral literalMulti
          depthB depthC (cur ++ ['"']) parts rest
      | '\'', '\'' :: '\'' :: rest3 =>
        splitTopLevelAux fuel sep inBasic basicMulti true true
          depthB depthC (cur ++ ['\'', '\'', '\'']) parts rest3
      | '\'', _ =>
        splitTopLevelAux fuel sep inBasic basicMulti true false
          depthB depthC (cur ++ ['\'']) parts rest
      | '[', _ =>
        splitTopLevelAux fuel sep inBasic basicMulti inLiteral literalMulti
          (depthB + 1) depthC (cur ++ [ch]) parts rest
      | ']', _ =>
        splitTopLevelAux fuel sep inBasic basicMulti inLiteral literalMulti
          (depthB - 1) depthC (cur ++ [ch]) parts rest
      | '\x7b', _ =>
        splitTopLevelAux fuel sep inBasic basicMulti inLiteral literalMulti
          depthB (depthC + 1) (cur ++ [ch]) parts rest
      | '\x7d', _ =>
        splitTopLevelAux fuel sep inBasic basicMulti inLiteral literalMulti
          depthB (depthC - 1) (cur ++ [ch]) parts rest
      | _, _ =>
        if depthB = 0 ∧ depthC = 0 ∧ ch = sep then
          splitTopLevelAux fuel sep inBasic basicMulti inLiteral literalMulti
            depthB depthC [] (parts ++ [trimSpace cur]) rest
        else
          splitTopLevelAux fuel sep inBasic basicMulti inLiteral literalMulti
            depthB depthC (cur ++ [ch]) parts rest

/-- `splitTopLevel` from the source. -/
def splitTopLevel (s : GoStr) (sep : Char) : List GoStr :=
  splitTopLevelAux (s.length + 1) sep false false false false 0 0 [] [] s

/-! ## `consumeValue` (multi-line value continuation)

The parser state threaded here is the remaining input lines and the
1-based `lineNo`; `bufio.Scanner` is modelled by the line list.  Results of
the pulling loops are `(outcome, remaining lines, lineNo)`. -/

/-- The quote/bracket depth scan that `consumeValue` runs over a physical
line (same quote state machine, no comment handling; `[`/`]` and the brace
pair adjust one shared depth). -/
def scanDepthLine : Nat → Bool → Bool → Bool → Bool → Int →
    GoStr → (Bool × Bool × Bool × Bool × Int)
  | 0, inBasic, basicMulti, inLiteral, literalMulti, depth, _ =>
    (inBasic, basicMulti, inLiteral, literalMulti, depth)
  | _ + 1, inBasic, basicMulti, inLiteral, literalMulti, depth, [] =>
    (inBasic, basicMulti, inLiteral, literalMulti, depth)
  | fuel + 1, inBasic, basicMulti, inLiteral, literalMulti, depth, ch :: rest =>
    if inBasic then
      if ch = '\\' then
        match rest with
        | _ :: rest2 => scanDepthLine fuel inBasic basicMulti inLiteral literalMulti depth rest2
        | [] => (inBasic, basicMulti, inLiteral, literalMulti, depth)
      else if basicMulti then
        match ch, rest with
        | '"', '"' :: '"' :: rest3 =>
          scanDepthLine fuel false false inLiteral literalMulti depth rest3
        | _, _ => scanDepthLine fuel inBasic basicMulti inLiteral literalMulti depth rest
      else if ch = '"' then
        scanDepthLine fuel false basicMulti inLiteral literalMulti depth rest
      else
        scanDepthLine fuel inBasic basicMulti inLiteral literalMulti depth rest
    else if inLiteral then
      if literalMulti then
        match ch, rest with
        | '\'', '\'' :: '\'' :: rest3 =>
          scanDepthLine fuel inBasic basicMulti false false depth rest3
        | _, _ => scanDepthLine fuel inBasic basicMulti inLiteral literalMulti depth rest
      else if ch = '\'' then
        scanDepthLine fuel inBasic basicMulti false literalMulti depth rest
      else
        scanDepthLine fuel inBasic basicMulti inLiteral literalMulti depth rest
    else
      match ch, rest with
      | '"', '"' :: '"' :: rest3 =>
        scanDepthLine fuel true true inLiteral literalMulti depth rest3
      | '"', _ => scanDepthLine fuel true false inLiteral literalMulti depth rest
      | '\'', '\'' :: '\'' :: rest3 =>
        scanDepthLine fuel inBasic basicMulti true true depth rest3
      | '\'', _ => scanDepthLine fuel inBasic basicMulti true false depth rest
      | '[', _ => scanDepthLine fuel inBasic basicMulti inLiteral literalMulti (depth + 1) rest
      | '\x7b', _ => scanDepthLine fuel inBasic basicMulti inLiteral literalMulti (depth + 1) rest
      | ']', _ => scanDepthLine fuel inBasic basicMulti inLiteral literalMulti (depth - 1) rest
      | '\x7d', _ => scanDepthLine fuel inBasic basicMulti inLiteral literalMulti (depth - 1) rest
      | _, _ => scanDepthLine fuel inBasic basicMulti inLiteral literalMulti depth rest

/-- Pulling loop of the two triple-quoted branches of `consumeValue`: keeps
appending `"\n" + line`, stopping once the appended portion (the text past
the initial string) contains the delimiter; exhausting input is the
unterminated-string error. -/
def pullUntil (delim errMsg : GoStr) (acc : GoStr) :
    List GoStr → Nat → (Except GoStr GoStr × List GoStr × Nat)
  | [], n => (.error errMsg, [], n)
  | l :: rest, n =>
    let acc' := acc ++ '\n' :: l
    if containsSub acc' delim then (.ok acc', rest, n + 1)
    else pullUntil delim errMsg acc' rest (n + 1)

/-- Pulling loop of the compound (`[`/brace) branch of `consumeValue`:
keeps appending lines while the tracked depth is positive. -/
def pullDepth (inBasic basicMulti inLiteral literalMulti : Bool)
    (depth : Int) (acc : GoStr) :
    List GoStr → Nat → (Except GoStr GoStr × List GoStr × Nat)
  | [], n =>
    if depth ≤ 0 then (.ok acc, [], n)
    else (.error "unterminated compound value".data, [], n)
  | l :: rest, n =>
    if depth ≤ 0 then (.ok acc, l :: rest, n)
    else
      match scanDepthLine (l.length + 1) inBasic basicMulti inLiteral literalMulti depth l with
      | (b, bm, li, lm, d') =>
        pullDepth b bm li lm d' (acc ++ '\n' :: l) rest (n + 1)

/-- `consumeValue` from the source: given the text following `=`, pulls
additional physical lines while the value token is structurally open
(unterminated triple-quoted string, or positive bracket depth), advancing
`lineNo` per pulled line.  The returned string is the initial text plus the
pulled lines joined by newlines. -/
def consumeValue (initial : GoStr) (lines : List GoStr) (lineNo : Nat) :
    Except GoStr GoStr × List GoStr × Nat :=
  let sTrim := trimSpace (stripCommentPreserveStrings initial)
  if sTrim = [] then (.error "empty value".data, lines, lineNo)
  else if startsWith sTrim ['"', '"', '"'] ∧
      containsSub (sTrim.drop 3) ['"', '"', '"'] = false then
    match pullUntil ['"', '"', '"'] "unterminated multiline string".data [] lines lineNo with
    | (.ok acc, ls, n) => (.ok (initial ++ acc), ls, n)
    | (.error m, ls, n) => (.error m, ls, n)
  else if startsWith sTrim ['\'', '\'', '\''] ∧
      containsSub (sTrim.drop 3) ['\'', '\'', '\''] = false then
    match pullUntil ['\'', '\'', '\''] "unterminated multiline literal string".data [] lines lineNo with
    | (.ok acc, ls, n) => (.ok (initial ++ acc), ls, n)
    | (.error m, ls, n) => (.error m, ls, n)
  else if startsWith sTrim ['['] ∨ startsWith sTrim ['\x7b'] then
    match scanDepthLine (initial.length + 1) false false false false 0 initial with
    | (b, bm, li, lm, d) =>
      match pullDepth b bm li lm d [] lines lineNo with
      | (.ok acc, ls, n) => (.ok (initial ++ acc), ls, n)
      | (.error m, ls, n) => (.error m, ls, n)
  else (.ok initial, lines, lineNo)

/-! ## Modelled `strconv` number parsing -/

/-- Digit value of a character, as in `strconv` (`0-9`, `a-z`, `A-Z`);
`none` when the character is no digit of the base. -/
def digitVal? (base : Nat) (c : Char) : Option Nat :=
  let d : Nat :=
    if '0' ≤ c ∧ c ≤ '9' then c.toNat - '0'.toNat
    else if 'a' ≤ c ∧ c ≤ 'z' then c.toNat - 'a'.toNat + 10
    else if 'A' ≤ c ∧ c ≤ 'Z' then c.toNat - 'A'.toNat + 10
    else 99
  if d < base then some d else none

/-- Digit-accumulation loop of `strconv.ParseUint`. -/
def parseUintLoopAcc (base : Nat) (acc : Nat) : GoStr → Option Nat
  | [] => some acc
  | c :: rest =>
    match digitVal? base c with
    | some d => parseUintLoopAcc base (acc * base + d) rest
    | none => none

/-- Models `strconv.ParseUint(s, base, 64)`: no sign, at least one digit,
all digits of the base, value below `2^64`.  (Go checks overflow per digit
against a cutoff; over natural numbers that is equivalent to the final
value check.) -/
def goParseUint (base : Nat) (s : GoStr) : Option Nat :=
  if s = [] then none
  else
    match parseUintLoopAcc base 0 s with
    | some v => if v < 2 ^ 64 then some v else none
    | none => none

/-- Reinterprets an unsigned 64-bit value as Go `int64(v)` (two's
complement). -/
def toInt64 (v : Nat) : Int :=
  if v < 2 ^ 63 then (v : Int) else (v : Int) - 2 ^ 64

/-- Wraps an integer into int64 range, as Go's int64 arithmetic does. -/
def wrapI64 (i : Int) : Int :=
  (i + 2 ^ 63) % 2 ^ 64 - 2 ^ 63

/-- Models `strconv.ParseInt(s, 10, 64)`: one optional sign, decimal
digits, with the int64 cutoff checks (`≥ 2^63` positive, `> 2^63`
negative magnitudes are range errors). -/
def goParseInt64 (s : GoStr) : Option Int :=
  match s with
  | [] => none
  | c :: rest =>
    match goParseUint 10 (if c = '-' ∨ c = '+' then rest else c :: rest) with
    | none => none
    | some un =>
      if c ≠ '-' ∧ 2 ^ 63 ≤ un then none
      else if c = '-' ∧ 2 ^ 63 < un then none
      else some (if c = '-' then -(un : Int) else (un : Int))

/-- One base-prefixed branch of `parseIntToken` (the source repeats this
text for `0x`, `0o` and `0b`): strip a `-` then a `+`, parse the digits
after the two prefix characters as unsigned, convert to int64 and multiply
by the sign in wrapping int64 arithmetic. -/
def intWithBase (base : Nat) (s : GoStr) : Option Int :=
  let sign : Int := if startsWith s ['-'] then -1 else 1
  let s1 := if startsWith s ['-'] then s.drop 1 else s
  let s2 := if startsWith s1 ['+'] then s1.drop 1 else s1
  (goParseUint base (s2.drop 2)).map fun v => wrapI64 (toInt64 v * sign)

/-- Branch selection of `parseIntToken` on the underscore-stripped text
(the source reassigns `s` and continues): base 16/8/2 on a `0x`/`0o`/`0b`
prefix (optionally signed), else decimal signed 64-bit. -/
def parseIntTokenStripped (s : GoStr) : Option Int :=
  if startsWith s ['0', 'x'] ∨ startsWith s ['-', '0', 'x'] ∨ startsWith s ['+', '0', 'x'] then
    intWithBase 16 s
  else if startsWith s ['0', 'o'] ∨ startsWith s ['-', '0', 'o'] ∨ startsWith s ['+', '0', 'o'] then
    intWithBase 8 s
  else if startsWith s ['0', 'b'] ∨ startsWith s ['-', '0', 'b'] ∨ startsWith s ['+', '0', 'b'] then
    intWithBase 2 s
  else
    goParseInt64 s

/-- `parseIntToken` from the source: strips underscores, then selects the
base as above.  Go returns `(int64, error)`; the error payload is never
inspected by the caller, so the model returns an `Option`. -/
def parseIntToken (s0 : GoStr) : Option Int :=
  parseIntTokenStripped (s0.filter (· ≠ '_'))

def isDigitCh (c : Char) : Bool := '0' ≤ c && c ≤ '9'

/-- Decimal syntax accepted by `strconv.ParseFloat` after the optional
sign: digits with at most one dot (at least one digit overall) and an
optional exponent with at least one digit.  Hexadecimal float literals are
not modelled (no claim involves them). -/
def isDecFloatForm (s : GoStr) : Bool :=
  let ds1 := s.takeWhile isDigitCh
  let r1 := s.dropWhile isDigitCh
  let p2 : GoStr × GoStr :=
    match r1 with
    | '.' :: t => (t.takeWhile isDigitCh, t.dropWhile isDigitCh)
    | _ => ([], r1)
  if ds1.length + p2.1.length = 0 then false
  else
    match p2.2 with
    | [] => true
    | e :: t =>
      if e = 'e' ∨ e = 'E' then
        let t2 := if t.take 1 = ['+'] ∨ t.take 1 = ['-'] then t.drop 1 else t
        decide (t2 ≠ []) && t2.all isDigitCh
      else false

/-- Models `strconv.ParseFloat(s, 64)` as a recognizer: the special forms
`inf`/`infinity` (optionally signed) and unsigned `nan` case-insensitively,
else the decimal syntax.  The numeric value is not modelled: finite results
carry the literal text. -/
def goParseFloat (s : GoStr) : Option GoFloat :=
  match s with
  | [] => none
  | c :: rest =>
    let neg := c = '-'
    let body := if c = '-' ∨ c = '+' then rest else s
    if equalFold body "inf".data ∨ equalFold body "infinity".data then
      some (if neg then .neginf else .inf)
    else if equalFold s "nan".data then some .nan
    else if isDecFloatForm body then some (.finite s)
    else none

/-- `parseFloatToken` from the source: its own `inf`/`nan` checks, then
underscores stripped and `ParseFloat`. -/
def parseFloatToken (s : GoStr) : Option GoFloat :=
  if s = "inf".data ∨ s = "+inf".data then some .inf
  else if s = "-inf".data then some .neginf
  else if equalFold s "nan".data then some .nan
  else goParseFloat (s.filter (· ≠ '_'))

/-! ## Modelled `time.Parse` recognizers

Shape recognizers for the fixed layouts the source uses.  Field range
checks (month/day/hour bounds) and the leniencies of Go's layout engine
are not modelled: no claim depends on date/time validity, only on these
shapes being disjoint from the other scalar forms. -/

/-- Consumes exactly `n` decimal digits. -/
def chompDigits : Nat → GoStr → Option GoStr
  | 0, s => some s
  | _ + 1, [] => none
  | n + 1, c :: rest => if isDigitCh c then chompDigits n rest else none

/-- Consumes exactly the character `c`. -/
def chompChar (c : Char) : GoStr → Option GoStr
  | [] => none
  | x :: rest => if x = c then some rest else none

/-- Consumes an optional fractional-seconds part (`.` then one or more
digits). -/
def chompFracOpt (s : GoStr) : GoStr :=
  match s with
  | '.' :: c :: rest => if isDigitCh c then rest.dropWhile isDigitCh else s
  | _ => s

/-- Consumes `hh:mm:ss` with optional fraction. -/
def chompClock (s : GoStr) : Option GoStr := do
  let r ← chompDigits 2 s
  let r ← chompChar ':' r
  let r ← chompDigits 2 r
  let r ← chompChar ':' r
  let r ← chompDigits 2 r
  pure (chompFracOpt r)

/-- Consumes `yyyy-mm-dd`. -/
def chompDate (s : GoStr) : Option GoStr := do
  let r ← chompDigits 4 s
  let r ← chompChar '-' r
  let r ← chompDigits 2 r
  let r ← chompChar '-' r
  chompDigits 2 r

/-- Recognizer for `time.Parse(time.RFC3339Nano, s)`: date, `T`, clock,
optional fraction, then `Z` or a `±hh:mm` offset consuming the whole
string. -/
def isRFC3339Nano (s : GoStr) : Bool :=
  (do
    let r ← chompDate s
    let r ← chompChar 'T' r
    let r ← chompClock r
    match r with
    | ['Z'] => some ()
    | c :: rest =>
      if c = '+' ∨ c = '-' then do
        let r ← chompDigits 2 rest
        let r ← chompChar ':' r
        let r ← chompDigits 2 r
        if r = [] then some () else none
      else none
    | [] => none).isSome

/-- `parseLocalDateTimeVariants` from the source: the four local
date-time layouts (separator `T` or space, optional fraction), then the
date-only layout, then the two time-only layouts. -/
def parseLocalDateTimeVariants (s : GoStr) : Option Node :=
  let isLocalDT :=
    (do
      let r ← chompDate s
      let r ←
        match r with
        | 'T' :: rest => some rest
        | ' ' :: rest => some rest
        | _ => none
      let r ← chompClock r
      if r = [] then some () else none).isSome
  let isLocalDate := chompDate s = some []
  let isLocalTime := chompClock s = some []
  if isLocalDT then some (.value .vLocalDatetime (.datetime s))
  else if isLocalDate then some (.value .vLocalDate (.datetime s))
  else if isLocalTime then some (.value .vLocalTime (.datetime s))
  else none

/-! ## String extraction and escape decoding -/

/-- `extractTripleQuoted` from the source: requires length ≥ 6 and the
matching triple-quote prefix, finds the first closing delimiter after
position 3, and drops one leading newline of the content. -/
def extractTripleQuoted (s : GoStr) (q : Char) : Option GoStr :=
  if s.length < 6 then none
  else if q = '"' ∧ startsWith s ['"', '"', '"'] = false then none
  else if q = '\'' ∧ startsWith s ['\'', '\'', '\''] = false then none
  else
    let e : GoStr := if q = '\'' then ['\'', '\'', '\''] else ['"', '"', '"']
    match indexOfSub (s.drop 3) e with
    | none => none
    | some idx =>
      let content := (s.drop 3).take idx
      some (match content with
            | '\n' :: r => r
            | _ => content)

/-- `extractSingleQuoted` from the source: length ≥ 2 and the quote at
both ends; the inner text is returned verbatim. -/
def extractSingleQuoted (s : GoStr) (q : Char) : Option GoStr :=
  if s.length < 2 then none
  else if s.take 1 = [q] ∧ s.getLast? = some q then some ((s.drop 1).dropLast)
  else none

/-- Models `strconv.ParseUint(h, 16, 32)` followed by `rune(v)` in
`parseHexRune`: the hex value reinterpreted as a 32-bit signed rune. -/
def parseHexRune (h : GoStr) : Option Int :=
  if h = [] then none
  else
    match parseUintLoopAcc 16 0 h with
    | some v => if v < 2 ^ 32 then some (if v < 2 ^ 31 then (v : Int) else (v : Int) - 2 ^ 32) else none
    | none => none

/-- Models `strings.Builder.WriteRune`: an invalid rune (negative,
surrogate, or above U+10FFFF) is written as U+FFFD. -/
def goWriteRune (r : Int) : GoStr :=
  if (0 ≤ r ∧ r < 0xD800) ∨ (0xE000 ≤ r ∧ r ≤ 0x10FFFF) then [Char.ofNat r.toNat]
  else ['�']

/-- Multiline preprocessing phase of `decodeBasicString`: a backslash
immediately before a newline consumes the backslash, the newline and any
following run of spaces/tabs.  The Boolean flag is true while inside such
a run. -/
def foldMLAux : Nat → Bool → GoStr → GoStr
  | 0, _, _ => []
  | _ + 1, _, [] => []
  | fuel + 1, skip, c :: rest =>
    if skip ∧ (c = ' ' ∨ c = '\t') then foldMLAux fuel true rest
    else
      match c, rest with
      | '\\', '\n' :: rest2 => foldMLAux fuel true rest2
      | _, _ => c :: foldMLAux fuel false rest

/-- Escape-decoding phase of `decodeBasicString`. -/
def decodeEscapes : GoStr → Except GoStr GoStr
  | [] => .ok []
  | '\\' :: rest =>
    match rest with
    | [] => .error "invalid escape".data
    | 'b' :: rest2 => (decodeEscapes rest2).map ('\x08' :: ·)
    | 't' :: rest2 => (decodeEscapes rest2).map ('\t' :: ·)
    | 'n' :: rest2 => (decodeEscapes rest2).map ('\n' :: ·)
    | 'f' :: rest2 => (decodeEscapes rest2).map ('\x0c' :: ·)
    | 'r' :: rest2 => (decodeEscapes rest2).map ('\r' :: ·)
    | '"' :: rest2 => (decodeEscapes rest2).map ('"' :: ·)
    | '\\' :: rest2 => (decodeEscapes rest2).map ('\\' :: ·)
    | 'u' :: h1 :: h2 :: h3 :: h4 :: rest6 =>
      (match parseHexRune [h1, h2, h3, h4] with
       | none => .error "invalid unicode escape value".data
       | some r => (decodeEscapes rest6).map (goWriteRune r ++ ·))
    | 'u' :: _ => .error "invalid unicode escape".data
    | 'U' :: h1 :: h2 :: h3 :: h4 :: h5 :: h6 :: h7 :: h8 :: rest10 =>
      (match parseHexRune [h1, h2, h3, h4, h5, h6, h7, h8] with
       | none => .error "invalid unicode escape value".data
       | some r => (decodeEscapes rest10).map (goWriteRune r ++ ·))
    | 'U' :: _ => .error "invalid unicode escape".data
    | _ :: _ => .error "unsupported escape".data
  | c :: rest => (decodeEscapes rest).map (c :: ·)

/-- `decodeBasicString` from the source: optional line-folding phase (for
the multiline form) then escape decoding. -/
def decodeBasicString (s : GoStr) (multiline : Bool) : Except GoStr GoStr :=
  decodeEscapes (if multiline then foldMLAux (s.length + 1) false s else s)

/-! ## Value parsing (`parseValue`, `parseArrayToken`, `parseInlineTableToken`)

`parseValue` recurses into array elements and inline-table values through
syntactically shorter substrings; the recursion is driven by a structural
fuel parameter, and the token constructors take the next-level value parser
as an argument.  A Go slice panic (`content[1:0]` when an array token is the
single character `[`) is the explicit outcome `panicRes`. -/

/-- Outcome of value-level parsing: Go runtime panic, `error`, or a node. -/
inductive PRes (α : Type) where
  | panicRes : PRes α
  | errRes (msg : GoStr) : PRes α
  | okRes (a : α) : PRes α
deriving Repr

/-- Element loop of `parseArrayToken`: pieces empty after trimming are
skipped; the first decoded element fixes `elemKind`; a later element of a
different kind is the mixed-type error; elements are appended in order. -/
def arrLoop (pv : GoStr → PRes Node) :
    List GoStr → List Node → VKind → PRes (List Node)
  | [], acc, _ => .okRes acc
  | part :: rest, acc, elemKind =>
    if trimSpace part = [] then arrLoop pv rest acc elemKind
    else
      match pv part with
      | .panicRes => .panicRes
      | .errRes m => .errRes m
      | .okRes v =>
        if acc.isEmpty then arrLoop pv rest (acc ++ [v]) v.kind
        else if v.kind ≠ elemKind then .errRes "mixed-type array".data
        else arrLoop pv rest (acc ++ [v]) elemKind

/-- `parseArrayToken` from the source.  The initial `elemKind` models the
zero value of Go's `ValueKind`; it is only read once an element has been
appended.  When the stripped content is the single character `[`,
`content[1:len(content)-1]` is Go's out-of-range slice: `panicRes`. -/
def parseArrayToken (pv : GoStr → PRes Node) (s : GoStr) : PRes Node :=
  let content := trimSpace (stripCommentPreserveStrings s)
  if startsWith content ['['] = false then .errRes "invalid array".data
  else if content.length = 1 then .panicRes
  else
    let inner := trimSpace ((content.drop 1).dropLast)
    match arrLoop pv (splitTopLevel inner ',') [] .vString with
    | .okRes elems => .okRes (.arr elems)
    | .errRes m => .errRes m
    | .panicRes => .panicRes

/-- Walk of one inline-table binding (`parseInlineTableToken` body): all
but the last segment traverse or create tables inside the fresh table
(conflict on a non-table), the last segment is checked for duplicates and
then bound to the decoded value.  An empty segment list is Go's
`parts[len(parts)-1]` index panic. -/
def inlineBind (pv : GoStr → PRes Node) (items : Items) (valText : GoStr) :
    List GoStr → PRes Items
  | [] => .panicRes
  | [last] =>
    if (lookupItem items last).isSome then .errRes "duplicate inline table key".data
    else
      match pv valText with
      | .panicRes => .panicRes
      | .errRes m => .errRes m
      | .okRes v => .okRes (setItem items last v)
  | part :: rest =>
    match lookupItem items part with
    | none =>
      match inlineBind pv [] valText rest with
      | .okRes sub => .okRes (setItem items part (.table sub))
      | .errRes m => .errRes m
      | .panicRes => .panicRes
    | some (.table sub) =>
      match inlineBind pv sub valText rest with
      | .okRes sub' => .okRes (setItem items part (.table sub'))
      | .errRes m => .errRes m
      | .panicRes => .panicRes
    | some _ => .errRes "inline table path conflict".data

/-- Pair loop of `parseInlineTableToken`: pairs empty after trimming are
skipped; each other pair needs an unquoted `=`, key-part resolution, and
the binding walk. -/
def inlineLoop (pv : GoStr → PRes Node) (items : Items) :
    List GoStr → PRes Items
  | [] => .okRes items
  | pair0 :: rest =>
    let pair := trimSpace pair0
    if pair = [] then inlineLoop pv items rest
    else
      match findUnquotedEqual pair with
      | none => .errRes "invalid inline table kv".data
      | some idx =>
        let key := trimSpace (pair.take idx)
        let val := trimSpace (pair.drop (idx + 1))
        match parseKeyParts key with
        | .error m => .errRes m
        | .ok parts =>
          match inlineBind pv items val parts with
          | .okRes items' => inlineLoop pv items' rest
          | .errRes m => .errRes m
          | .panicRes => .panicRes

/-- `parseInlineTableToken` from the source. -/
def parseInlineTableToken (pv : GoStr → PRes Node) (s : GoStr) : PRes Node :=
  let content := trimSpace (stripCommentPreserveStrings s)
  if startsWith content ['\x7b'] = false ∨ endsWith content ['\x7d'] = false then
    .errRes "invalid inline table".data
  else
    let inner := trimSpace ((content.drop 1).dropLast)
    match inlineLoop pv [] (splitTopLevel inner ',') with
    | .okRes items => .okRes (.table items)
    | .errRes m => .errRes m
    | .panicRes => .panicRes

/-- `parseValue` from the source, with its fixed priority order: the four
string forms, array token, inline-table token, booleans, float specials,
offset date-time, local date/time variants, integer, float, else the
unsupported-value error.  Fuel bounds the nesting depth of the Go
recursion. -/
def parseValue : Nat → GoStr → PRes Node
  | 0, _ => .errRes "parse fuel exhausted".data
  | fuel + 1, s0 =>
    let s := trimSpace (stripCommentPreserveStrings s0)
    if s = [] then .errRes "empty value".data
    else if startsWith s ['"', '"', '"'] then
      match extractTripleQuoted s '"' with
      | none => .errRes "unterminated multiline string".data
      | some content =>
        match decodeBasicString content true with
        | .error m => .errRes m
        | .ok d => .okRes (.value .vString (.str d))
    else if startsWith s ['\'', '\'', '\''] then
      match extractTripleQuoted s '\'' with
      | none => .errRes "unterminated multiline literal string".data
      | some content => .okRes (.value .vString (.str content))
    else if startsWith s ['"'] then
      match extractSingleQuoted s '"' with
      | none => .errRes "unterminated string".data
      | some content =>
        match decodeBasicString content false with
        | .error m => .errRes m
        | .ok d => .okRes (.value .vString (.str d))
    else if startsWith s ['\''] then
      match extractSingleQuoted s '\'' with
      | none => .errRes "unterminated literal string".data
      | some content => .okRes (.value .vString (.str content))
    else if startsWith s ['['] then
      parseArrayToken (parseValue fuel) s
    else if startsWith s ['\x7b'] then
      parseInlineTableToken (parseValue fuel) s
    else if s = "true".data ∨ s = "false".data then
      .okRes (.value .vBool (.bool (s = "true".data)))
    else if s = "inf".data ∨ s = "+inf".data then
      .okRes (.value .vFloat (.float .inf))
    else if s = "-inf".data then
      .okRes (.value .vFloat (.float .neginf))
    else if equalFold s "nan".data then
      .okRes (.value .vFloat (.float .nan))
    else if isRFC3339Nano s then
      .okRes (.value .vDatetime (.datetime s))
    else
      match parseLocalDateTimeVariants s with
      | some node => .okRes node
      | none =>
        match parseIntToken s with
        | some i => .okRes (.value .vInt (.int i))
        | none =>
          match parseFloatToken s with
          | some f => .okRes (.value .vFloat (.float f))
          | none => .errRes "unsupported value".data

/-- The value parser as the Go code calls it: fuel is one more than the
token length, which bounds the bracket-nesting depth of any token. -/
def parseValueGo (s : GoStr) : PRes Node :=
  parseValue (s.length + 1) s

/-! ## Tree builder (`parseTableHeader`, `parseKeyValue`) and `Parse` -/

/-- A parse-level error: `errf` output (1-based line number plus message),
or a Go runtime panic. -/
inductive PErr where
  | perr (lineNo : Nat) (msg : GoStr)
  | panicked
deriving Repr

/-- `fmt %q` of a plain key (escaping of non-printable characters is not
modelled; all keys of interest are plain). -/
def goQuote (k : GoStr) : GoStr := '"' :: (k ++ ['"'])

def dupKeyMsg (k : GoStr) : GoStr := "duplicate key ".data ++ goQuote k

def notTableMsg (k : GoStr) : GoStr :=
  "key ".data ++ goQuote k ++ " already defined and is not a table".data

def notArrayMsg (k : GoStr) : GoStr :=
  "key ".data ++ goQuote k ++ " already defined and is not an array".data

/-- Walk of a plain table header: every segment traverses an existing
table or creates a fresh one; an existing binding of any other kind is the
key-conflict error.  Returns the updated root items; the new cursor is the
key path itself. -/
def walkHeader (items : Items) : List GoStr → Except GoStr Items
  | [] => .ok items
  | part :: rest =>
    match lookupItem items part with
    | none => (walkHeader [] rest).map fun sub => setItem items part (.table sub)
    | some (.table sub) => (walkHeader sub rest).map fun sub' => setItem items part (.table sub')
    | some _ => .error (notTableMsg part)

/-- Header-walk error: a key-conflict message or the
`parts[len(parts)-1]` index panic on an empty segment list. -/
inductive HErr where
  | hmsg (m : GoStr)
  | hpanic

/-- Walk of an array-of-tables header: intermediate segments as in
`walkHeader`; at the last segment an unbound key gets a fresh empty
`Array`, an existing binding must be an `Array`, and in both cases one new
empty table is appended and becomes the cursor (key plus index of the
appended element). -/
def headerArray (items : Items) : List GoStr → Except HErr (Items × List Step)
  | [] => .error .hpanic
  | [last] =>
    match lookupItem items last with
    | none =>
      .ok (setItem items last (.arr [.table []]), [.key last, .idx 0])
    | some (.arr es) =>
      .ok (setItem items last (.arr (es ++ [.table []])), [.key last, .idx es.length])
    | some _ => .error (.hmsg (notArrayMsg last))
  | part :: rest =>
    match lookupItem items part with
    | none =>
      (headerArray [] rest).map fun p => (setItem items part (.table p.1), .key part :: p.2)
    | some (.table sub) =>
      (headerArray sub rest).map fun p => (setItem items part (.table p.1), .key part :: p.2)
    | some _ => .error (.hmsg (notTableMsg part))

/-- `parseTableHeader` from the source: comment-strip and trim the line,
detect the `[[`/`]]` array form, check the closing bracket(s), slice out
the name, resolve key parts, then walk the root.  Returns the updated root
items and the new cursor path. -/
def parseTableHeader (line : GoStr) (lineNo : Nat) (root : Items) :
    Except PErr (Items × List Step) :=
  let s := trimSpace (stripCommentPreserveStrings line)
  let isArray := startsWith s ['[', '[']
  if isArray ∧ endsWith s [']', ']'] = false then
    .error (.perr lineNo "invalid array-of-table header".data)
  else if isArray = false ∧ endsWith s [']'] = false then
    .error (.perr lineNo "invalid table header".data)
  else
    let name :=
      if isArray then trimSpace (((s.drop 2).dropLast).dropLast)
      else trimSpace ((s.drop 1).dropLast)
    match parseKeyParts name with
    | .error m => .error (.perr lineNo m)
    | .ok parts =>
      if isArray then
        match headerArray root parts with
        | .ok p => .ok p
        | .error (.hmsg m) => .error (.perr lineNo m)
        | .error .hpanic => .error .panicked
      else
        match walkHeader root parts with
        | .ok root' => .ok (root', parts.map .key)
        | .error m => .error (.perr lineNo m)

/-- Key/value walk of `parseKeyValue`, on the items of the current table:
all but the last segment traverse or create tables (key conflict on any
other binding); the last segment must be unbound (duplicate-key error,
raised before the value is consumed), then `consumeValue` pulls the full
value text (advancing the line state) and the value parser decodes it.
An empty segment list is Go's `parts[len(parts)-1]` index panic. -/
def kvWalk (pv : GoStr → PRes Node) (lines : List GoStr) (lineNo : Nat)
    (valText : GoStr) (items : Items) :
    List GoStr → Except PErr Items × List GoStr × Nat
  | [] => (.error .panicked, lines, lineNo)
  | [last] =>
    if (lookupItem items last).isSome then
      (.error (.perr lineNo (dupKeyMsg last)), lines, lineNo)
    else
      match consumeValue valText lines lineNo with
      | (.error m, ls, n) => (.error (.perr n m), ls, n)
      | (.ok full, ls, n) =>
        match pv full with
        | .panicRes => (.error .panicked, ls, n)
        | .errRes m => (.error (.perr n m), ls, n)
        | .okRes v => (.ok (setItem items last v), ls, n)
  | part :: rest =>
    match lookupItem items part with
    | none =>
      match kvWalk pv lines lineNo valText [] rest with
      | (.ok sub, ls, n) => (.ok (setItem items part (.table sub)), ls, n)
      | (.error e, ls, n) => (.error e, ls, n)
    | some (.table sub) =>
      match kvWalk pv lines lineNo valText sub rest with
      | (.ok sub', ls, n) => (.ok (setItem items part (.table sub')), ls, n)
      | (.error e, ls, n) => (.error e, ls, n)
    | some _ => (.error (.perr lineNo (notTableMsg part)), lines, lineNo)

/-- `parseKeyValue` from the source: split the line at the unquoted `=`,
resolve the key parts, then run the key/value walk on the current table
(addressed by the cursor path) and write the updated table back.  The two
defensive branches are unreachable: the cursor always addresses a table
inside the root. -/
def parseKeyValue (line : GoStr) (idx : Nat) (lines : List GoStr)
    (lineNo : Nat) (root : Items) (cur : List Step) :
    Except PErr Items × List GoStr × Nat :=
  let key := trimSpace (line.take idx)
  let val := trimSpace (line.drop (idx + 1))
  match parseKeyParts key with
  | .error m => (.error (.perr lineNo m), lines, lineNo)
  | .ok parts =>
    match getAt (.table root) cur with
    | some (.table items) =>
      match kvWalk parseValueGo lines lineNo val items parts with
      | (.ok items', ls, n) =>
        match setAt (.table root) cur (.table items') with
        | .table root' => (.ok root', ls, n)
        | _ => (.error .panicked, ls, n)
      | (.error e, ls, n) => (.error e, ls, n)
    | _ => (.error .panicked, lines, lineNo)

/-- Main loop of `Parse`: trim each line, advance `lineNo`, skip blank and
comment lines, dispatch lines starting with `[` to the table-header
handler and the rest through `findUnquotedEqual` to the key/value handler
(no unquoted `=` is the syntax error).  Fuel is the number of remaining
lines plus one: each iteration consumes at least the line it reads, so the
zero-fuel case is unreachable. -/
def parseLines : Nat → List GoStr → Nat → Items → List Step → Except PErr Items
  | 0, _, _, _, _ => .error (.perr 0 "parse fuel exhausted".data)
  | _ + 1, [], _, root, _ => .ok root
  | fuel + 1, l :: rest, lineNo, root, cur =>
    let line := trimSpace l
    let n := lineNo + 1
    if line = [] ∨ startsWith line ['#'] then parseLines fuel rest n root cur
    else if startsWith line ['['] then
      match parseTableHeader line n root with
      | .error e => .error e
      | .ok p => parseLines fuel rest n p.1 p.2
    else
      match findUnquotedEqual line with
      | none => .error (.perr n "invalid syntax".data)
      | some idx =>
        match parseKeyValue line idx rest n root cur with
        | (.ok root', ls, n') => parseLines fuel ls n' root' cur
        | (.error e, _, _) => .error e

/-- `Parse` from the source, on the list of physical lines produced by
`bufio.Scanner`: starts from an empty root table with the cursor at the
root and `lineNo = 0`. -/
def Parse (docLines : List GoStr) : Except PErr Items :=
  parseLines (docLines.length + 1) docLines 0 [] []

/-! ## Safe access helpers (`Get`) -/

/-- Walk of `Get`: empty path segments are skipped; otherwise the current
node must be a table binding the segment. -/
def getWalk : Node → List GoStr → Option Node
  | cur, [] => some cur
  | cur, p :: rest =>
    if p = [] then getWalk cur rest
    else
      match cur with
      | .table items =>
        match lookupItem items p with
        | some next => getWalk next rest
        | none => none
      | _ => none

/-- `Get` from the source (`none` for `(nil, false)`). -/
def Get (root : Items) (path : List GoStr) : Option Node :=
  getWalk (.table root) path

/-! ## Concrete documents of the claims (as line lists, the form
`bufio.Scanner` hands to the parser) -/

def productsDoc : List GoStr :=
  ["[[products]]".data, "name = \"Hammer\"".data, "sku = 738594937".data,
   "".data, "[[products]]".data, "name = \"Nails\"".data,
   "sku = 284758393".data, "count = 100".data]

def prodT1 : Items :=
  [("name".data, .value .vString (.str "Hammer".data)),
   ("sku".data, .value .vInt (.int 738594937))]

def prodT2 : Items :=
  [("name".data, .value .vString (.str "Nails".data)),
   ("sku".data, .value .vInt (.int 284758393)),
   ("count".data, .value .vInt (.int 100))]

def prodRoot : Items := [("products".data, .arr [.table prodT1, .table prodT2])]

def quotedDoc : List GoStr := ["\"a.b\" = 1".data, "a.b = 2".data]

def quotedRoot : Items :=
  [("a.b".data, .value .vInt (.int 1)),
   ("a".data, .table [("b".data, .value .vInt (.int 2))])]

def multilineErrDoc : List GoStr := ["x = [".data, "1,".data, "oops".data, "]".data]

def dupKeyDoc : List GoStr := ["a = 1".data, "a = 2".data]

/-- All nodes of a list report the same discriminant tag. -/
def homogKinds (l : List Node) : Prop :=
  ∀ x ∈ l, ∀ y ∈ l, Node.kind x = Node.kind y

/-! ## Helper lemmas -/

/-- Digit-sequence value used to state number-decoding claims. -/
def digitsVal (base : Nat) (ds : GoStr) : Nat :=
  ds.foldl (fun a c => a * base + (digitVal? base c).getD 0) 0

theorem parseUintLoopAcc_eq (base : Nat) :
    ∀ (ds : GoStr) (acc : Nat), (∀ c ∈ ds, (digitVal? base c).isSome) →
      parseUintLoopAcc base acc ds =
        some (ds.foldl (fun a c => a * base + (digitVal? base c).getD 0) acc)
  | [], _, _ => rfl
  | c :: rest, acc, h => by
    obtain ⟨d, hd⟩ := Option.isSome_iff_exists.mp (h c (List.mem_cons_self ..))
    simp only [parseUintLoopAcc, hd, List.foldl_cons, Option.getD_some]
    exact parseUintLoopAcc_eq base rest (acc * base + d)
      (fun x hx => h x (List.mem_cons_of_mem _ hx))

theorem goParseUint_eq (base : Nat) (ds : GoStr) (hne : ds ≠ [])
    (hd : ∀ c ∈ ds, (digitVal? base c).isSome)
    (hlt : digitsVal base ds < 2 ^ 64) :
    goParseUint base ds = some (digitsVal base ds) := by
  unfold goParseUint
  rw [if_neg hne, parseUintLoopAcc_eq base ds 0 hd]
  simp only [digitsVal] at hlt ⊢
  simp [hlt]
  exact lt_of_lt_of_eq hlt (by norm_num)

/-- A character with a digit value in some base differs from any character
without one. -/
theorem digit_ne {base : Nat} {c : Char} (h : (digitVal? base c).isSome)
    (x : Char) (hx : digitVal? base x = none) : c ≠ x := by
  intro hcx; rw [hcx, hx] at h; simp at h

/-- Digit strings contain no underscore, so the underscore filter of
`parseIntToken` leaves them unchanged. -/
theorem filter_underscore_eq {base : Nat} {ds : GoStr}
    (hd : ∀ c ∈ ds, (digitVal? base c).isSome)
    (hu : digitVal? base '_' = none) :
    ds.filter (· ≠ '_') = ds := by
  apply List.filter_eq_self.mpr
  intro c hc
  simpa using digit_ne (hd c hc) '_' hu

/-- A string of digits of `base` never starts with the two characters
`a, b` when `b` has no digit value in `base`. -/
theorem startsWith_two_false {base : Nat} {ds : GoStr} (a b : Char)
    (hd : ∀ c ∈ ds, (digitVal? base c).isSome)
    (hb : digitVal? base b = none) :
    startsWith ds [a, b] = false := by
  match ds with
  | [] => rfl
  | [c1] => simp [startsWith, startsWithAux]
  | c1 :: c2 :: rest =>
    have : c2 ≠ b := digit_ne (hd c2 (by simp)) b hb
    simp [startsWith, startsWithAux, this]

/-- A string of digits of `base` never starts with a character that has no
digit value in `base` (such as a sign). -/
theorem startsWith_sign_false {base : Nat} {ds : GoStr} (pre : GoStr) (a : Char)
    (hne : ds ≠ []) (hd : ∀ c ∈ ds, (digitVal? base c).isSome)
    (ha : digitVal? base a = none) :
    startsWith ds (a :: pre) = false := by
  match ds with
  | [] => exact absurd rfl hne
  | c1 :: rest =>
    have : c1 ≠ a := digit_ne (hd c1 (by simp)) a ha
    simp [startsWith, startsWithAux, this]

theorem wrapI64_toInt64 (v : Nat) (h : v < 2 ^ 64) :
    wrapI64 (toInt64 v) = toInt64 v := by
  unfold wrapI64 toInt64
  split <;> omega

/-- Shared core for the three base-prefixed branches of `parseIntToken`. -/
theorem intWithBase_prefix (base : Nat) (c2 : Char) (ds : GoStr) (hne : ds ≠ [])
    (hd : ∀ c ∈ ds, (digitVal? base c).isSome)
    (hlt : digitsVal base ds < 2 ^ 64) :
    intWithBase base ('0' :: c2 :: ds) = some (toInt64 (digitsVal base ds)) := by
  have h1 : intWithBase base ('0' :: c2 :: ds) =
      (goParseUint base ds).map fun v => wrapI64 (toInt64 v * 1) := rfl
  rw [h1, goParseUint_eq base ds hne hd hlt]
  simp [wrapI64_toInt64 _ hlt]

/-- Invariant of the `parseArrayToken` element loop: if every accumulated
element already reports `elemKind`, every element of a successful result
reports a single common tag. -/
theorem arrLoop_homog (pv : GoStr → PRes Node) :
    ∀ (parts : List GoStr) (acc : List Node) (ek : VKind) (elems : List Node),
      (∀ x ∈ acc, Node.kind x = ek) →
      arrLoop pv parts acc ek = .okRes elems → homogKinds elems := by
  intro parts
  induction parts with
  | nil =>
    intro acc ek elems hacc heq
    simp only [arrLoop, PRes.okRes.injEq] at heq
    subst heq
    intro x hx y hy
    rw [hacc x hx, hacc y hy]
  | cons part rest ih =>
    intro acc ek elems hacc heq
    by_cases hskip : trimSpace part = []
    · rw [show arrLoop pv (part :: rest) acc ek = arrLoop pv rest acc ek by
        simp [arrLoop, hskip]] at heq
      exact ih acc ek elems hacc heq
    · cases hv : pv part with
      | panicRes =>
        simp only [arrLoop, if_neg hskip, hv] at heq
        exact absurd heq (by simp)
      | errRes m =>
        simp only [arrLoop, if_neg hskip, hv] at heq
        exact absurd heq (by simp)
      | okRes v =>
        simp only [arrLoop, if_neg hskip, hv] at heq
        by_cases hemp : acc.isEmpty
        · rw [if_pos hemp] at heq
          have hnil : acc = [] := List.isEmpty_iff.mp hemp
          subst hnil
          exact ih [v] v.kind elems (by simp) heq
        · rw [if_neg hemp] at heq
          by_cases hk : v.kind = ek
          · rw [if_neg (by simp [hk])] at heq
            refine ih (acc ++ [v]) ek elems ?_ heq
            intro x hx
            rcases List.mem_append.mp hx with h | h
            · exact hacc x h
            · rw [List.mem_singleton.mp h, hk]
          · rw [if_pos (by simp [hk])] at heq
            exact absurd heq (by simp)

/-! ## Claim theorems -/

/-- Claim C2: binding a final key segment already bound in the target
table is the hard duplicate-key parse error, both in `parseKeyValue`
(raised at the current line, before the value is consumed, leaving the
parse state unchanged) and in `parseInlineTableToken`; the existing
binding is never overwritten because the error aborts the parse. -/
theorem claim2_duplicate_key_hard_error :
    (∀ (pv : GoStr → PRes Node) (lines : List GoStr) (lineNo : Nat)
        (val : GoStr) (items : Items) (last : GoStr),
      (lookupItem items last).isSome →
      kvWalk pv lines lineNo val items [last] =
        (.error (.perr lineNo (dupKeyMsg last)), lines, lineNo)) ∧
    (∀ (pv : GoStr → PRes Node) (items : Items) (val : GoStr) (last : GoStr),
      (lookupItem items last).isSome →
      inlineBind pv items val [last] = .errRes "duplicate inline table key".data) := by
  constructor
  · intro pv lines lineNo val items last h
    simp [kvWalk, h]
  · intro pv items val last h
    simp [inlineBind, h]

/-- Witness for C2 at a concrete table that already binds `sku`. -/
theorem claim2_witness :
    kvWalk parseValueGo [] 3 "1".data
        [("sku".data, .value .vInt (.int 738594937))] ["sku".data] =
      (.error (.perr 3 (dupKeyMsg "sku".data)), [], 3) ∧
    inlineBind parseValueGo [("a".data, .value .vInt (.int 1))] "2".data ["a".data] =
      .errRes "duplicate inline table key".data := by
  constructor
  · exact claim2_duplicate_key_hard_error.1 parseValueGo [] 3 "1".data
      [("sku".data, .value .vInt (.int 738594937))] "sku".data (by decide)
  · exact claim2_duplicate_key_hard_error.2 parseValueGo
      [("a".data, .value .vInt (.int 1))] "2".data "a".data (by decide)

/-- Claim C3: a key-path walk may traverse an existing binding only when
it is a table — in the key/value walk, the plain-header walk, and the
intermediate segments of an array-of-tables header the walk stops with the
key-conflict error on any non-table binding — and the final segment of an
array-of-tables header extends an existing binding only when it is an
array, erroring on every other kind. -/
theorem claim3_traversal_kind_errors :
    (∀ (pv : GoStr → PRes Node) (lines : List GoStr) (lineNo : Nat)
        (val : GoStr) (items : Items) (part r : GoStr) (rs : List GoStr) (n : Node),
      lookupItem items part = some n → Node.kind n ≠ .vTable →
      kvWalk pv lines lineNo val items (part :: r :: rs) =
        (.error (.perr lineNo (notTableMsg part)), lines, lineNo)) ∧
    (∀ (items : Items) (part : GoStr) (rest : List GoStr) (n : Node),
      lookupItem items part = some n → Node.kind n ≠ .vTable →
      walkHeader items (part :: rest) = .error (notTableMsg part)) ∧
    (∀ (items : Items) (part r : GoStr) (rs : List GoStr) (n : Node),
      lookupItem items part = some n → Node.kind n ≠ .vTable →
      headerArray items (part :: r :: rs) = .error (.hmsg (notTableMsg part))) ∧
    (∀ (items : Items) (last : GoStr) (n : Node),
      lookupItem items last = some n → Node.kind n ≠ .vArray →
      headerArray items [last] = .error (.hmsg (notArrayMsg last))) := by
  refine ⟨?_, ?_, ?_, ?_⟩
  · intro pv lines lineNo val items part r rs n hlook hkind
    cases n with
    | table sub => simp [Node.kind] at hkind
    | arr es => simp [kvWalk, hlook]
    | value k p => simp [kvWalk, hlook]
  · intro items part rest n hlook hkind
    cases n with
    | table sub => simp [Node.kind] at hkind
    | arr es => simp [walkHeader, hlook]
    | value k p => simp [walkHeader, hlook]
  · intro items part r rs n hlook hkind
    cases n with
    | table sub => simp [Node.kind] at hkind
    | arr es => simp [headerArray, hlook]
    | value k p => simp [headerArray, hlook]
  · intro items last n hlook hkind
    cases n with
    | arr es => simp [Node.kind] at hkind
    | table sub => simp [headerArray, hlook]
    | value k p => simp [headerArray, hlook]

/-- Witness for C3: traversing a scalar binding with a dotted key/value
path, a plain header, an array-header prefix, and extending a scalar with
an array header, all error on the concrete table binding `a` to `1`. -/
theorem claim3_witness :
    kvWalk parseValueGo [] 2 "1".data [("a".data, .value .vInt (.int 1))]
        ["a".data, "b".data] =
      (.error (.perr 2 (notTableMsg "a".data)), [], 2) ∧
    walkHeader [("a".data, .value .vInt (.int 1))] ["a".data, "b".data] =
      .error (notTableMsg "a".data) ∧
    headerArray [("a".data, .value .vInt (.int 1))] ["a".data, "b".data] =
      .error (.hmsg (notTableMsg "a".data)) ∧
    headerArray [("a".data, .value .vInt (.int 1))] ["a".data] =
      .error (.hmsg (notArrayMsg "a".data)) := by
  refine ⟨?_, ?_, ?_, ?_⟩
  · exact claim3_traversal_kind_errors.1 parseValueGo [] 2 "1".data _ "a".data "b".data []
      (.value .vInt (.int 1)) rfl (by decide)
  · exact claim3_traversal_kind_errors.2.1 _ "a".data ["b".data]
      (.value .vInt (.int 1)) rfl (by decide)
  · exact claim3_traversal_kind_errors.2.2.1 _ "a".data "b".data []
      (.value .vInt (.int 1)) rfl (by decide)
  · exact claim3_traversal_kind_errors.2.2.2 _ "a".data
      (.value .vInt (.int 1)) rfl (by decide)

/-- Claim C5: every array node a literal array token decodes to is
homogeneous — all elements report one discriminant tag (for any element
parser, in particular the parser's own) — and decoding a token whose
elements decode to differing tags is the hard mixed-type error rather
than a mixed array. -/
theorem claim5_array_homogeneous :
    (∀ (pv : GoStr → PRes Node) (s : GoStr) (elems : List Node),
      parseArrayToken pv s = .okRes (.arr elems) → homogKinds elems) ∧
    parseValueGo "[1, \"x\"]".data = .errRes "mixed-type array".data := by
  constructor
  · intro pv s elems h
    unfold parseArrayToken at h
    simp only [] at h
    split at h
    · exact absurd h (by simp)
    · split at h
      · exact absurd h (by simp)
      · split at h
        next e0 heq =>
          have he : e0 = elems := by simpa using h
          subst he
          exact arrLoop_homog pv _ [] .vString e0 (by simp) heq
        next m heq => exact absurd h (by simp)
        next heq => exact absurd h (by simp)
  · rfl

/-- Witness for C5 at the concrete token `[8001, 8002]`. -/
theorem claim5_witness :
    homogKinds [Node.value .vInt (.int 8001), Node.value .vInt (.int 8002)] :=
  claim5_array_homogeneous.1 parseValueGo "[8001, 8002]".data
    [Node.value .vInt (.int 8001), Node.value .vInt (.int 8002)] rfl

/-- Claim C10: in the element loop of a literal array token, a piece that
is empty after trimming is skipped rather than decoded, and the trailing
comma in `[8001, 8002,]` yields exactly the two non-empty elements. -/
theorem claim10_trailing_comma :
    (∀ (pv : GoStr → PRes Node) (part : GoStr) (rest : List GoStr)
        (acc : List Node) (ek : VKind),
      trimSpace part = [] →
      arrLoop pv (part :: rest) acc ek = arrLoop pv rest acc ek) ∧
    parseValueGo "[8001, 8002,]".data =
      .okRes (.arr [.value .vInt (.int 8001), .value .vInt (.int 8002)]) := by
  constructor
  · intro pv part rest acc ek h
    simp [arrLoop, h]
  · rfl

/-- Witness for C10: an all-blank piece is skipped by the element loop. -/
theorem claim10_witness :
    arrLoop parseValueGo [" ".data] [] .vString = arrLoop parseValueGo [] [] .vString :=
  claim10_trailing_comma.1 parseValueGo " ".data [] [] .vString (by decide)

/-- Claim C1 is a code bug: `parseKeyParts` accepts the empty key
expression and the quoted-empty key expression without error but returns
zero segments, so each caller that reads `parts[len(parts)-1]` indexes out
of range — parsing the single line `"" = 1`, the array-of-tables header
`[[]]`, and the inline pair `{ "" = 1 }` all panic (modelled by
`PErr.panicked` / `PRes.panicRes`) instead of the claimed safe indexing. -/
theorem claim1_keyparts_empty_accepted_panics :
    parseKeyParts [] = .ok [] ∧
    parseKeyParts "\"\"".data = .ok [] ∧
    Parse ["\"\" = 1".data] = .error .panicked ∧
    Parse ["[[]]".data] = .error .panicked ∧
    parseValueGo "\x7b \"\" = 1 \x7d".data = .panicRes :=
  ⟨rfl, rfl, rfl, rfl, rfl⟩

/-- Claim C7: `"a.b"` resolves to the single literal segment `a.b`,
unquoted `a.b` to the two segments `a` then `b`; parsing a document with
both lines binds them independently and each is retrievable by its own
path. -/
theorem claim7_quoted_keys :
    parseKeyParts "\"a.b\"".data = .ok ["a.b".data] ∧
    parseKeyParts "a.b".data = .ok ["a".data, "b".data] ∧
    Parse quotedDoc = .ok quotedRoot ∧
    Get quotedRoot ["a.b".data] = some (.value .vInt (.int 1)) ∧
    Get quotedRoot ["a".data, "b".data] = some (.value .vInt (.int 2)) :=
  ⟨rfl, rfl, rfl, rfl, rfl⟩

/-- Counterexample to claim C8: the decode error of the logical line that
begins at line 1 (`x = [` whose value spans lines 1–4) is annotated with
line 4 — the last physical line pulled by `consumeValue` — not with
line 1 where the logical line began. -/
theorem claim8_counterexample :
    Parse multilineErrDoc = .error (.perr 4 "unsupported value".data) ∧ 4 ≠ 1 :=
  ⟨rfl, by decide⟩

/-- Claim C8 as amended: every error carries the parser's current 1-based
line number at the moment of detection.  For errors raised before any
extra line is pulled (duplicate key, key conflict, syntax) that is the
line where the logical line began; for a decode error of a value that
`consumeValue` completed by pulling extra physical lines, it is the number
of the last physical line pulled (`n` below), as the concrete runs show
(duplicate key on line 2 reported as line 2; decode error of the logical
line starting at line 1 reported as line 4). -/
theorem claim8_amended_line_numbers :
    (∀ (pv : GoStr → PRes Node) (lines : List GoStr) (lineNo : Nat)
        (val : GoStr) (items : Items) (last full : GoStr)
        (ls : List GoStr) (n : Nat) (m : GoStr),
      lookupItem items last = none →
      consumeValue val lines lineNo = (.ok full, ls, n) →
      pv full = .errRes m →
      kvWalk pv lines lineNo val items [last] = (.error (.perr n m), ls, n)) ∧
    Parse dupKeyDoc = .error (.perr 2 (dupKeyMsg "a".data)) ∧
    Parse multilineErrDoc = .error (.perr 4 "unsupported value".data) := by
  refine ⟨?_, rfl, rfl⟩
  intro pv lines lineNo val items last full ls n m hlook hcons hpv
  simp [kvWalk, hlook, hcons, hpv]

/-- Witness for C8 (amended): the concrete multi-line array whose third
piece fails to decode is reported at line 4, the last line pulled. -/
theorem claim8_witness :
    kvWalk parseValueGo ["1,".data, "oops".data, "]".data] 1 "[".data [] ["x".data] =
      (.error (.perr 4 "unsupported value".data), [], 4) :=
  claim8_amended_line_numbers.1 parseValueGo ["1,".data, "oops".data, "]".data] 1
    "[".data [] "x".data "[\n1,\noops\n]".data [] 4 "unsupported value".data
    rfl rfl rfl

/-- Claim C4: an array-of-tables header binds a fresh empty array when the
final segment is unbound and in both cases appends one new empty table
which becomes the cursor (the two general conjuncts); parsing the two
`[[products]]` blocks of the claim yields at `products` an array of
length 2 whose first element binds `name` to the string `Hammer`. -/
theorem claim4_array_of_tables :
    (∀ (items : Items) (last : GoStr),
      lookupItem items last = none →
      headerArray items [last] =
        .ok (setItem items last (.arr [.table []]), [.key last, .idx 0])) ∧
    (∀ (items : Items) (last : GoStr) (es : List Node),
      lookupItem items last = some (.arr es) →
      headerArray items [last] =
        .ok (setItem items last (.arr (es ++ [.table []])), [.key last, .idx es.length])) ∧
    Parse productsDoc = .ok prodRoot ∧
    Get prodRoot ["products".data] = some (.arr [.table prodT1, .table prodT2]) ∧
    [Node.table prodT1, Node.table prodT2].length = 2 ∧
    lookupItem prodT1 "name".data = some (.value .vString (.str "Hammer".data)) := by
  refine ⟨?_, ?_, rfl, rfl, rfl, rfl⟩
  · intro items last h
    simp [headerArray, h]
  · intro items last es h
    simp [headerArray, h]

/-- Witness for C4: binding an unbound segment creates a one-table array
with the cursor on the appended table; a second header appends to it. -/
theorem claim4_witness :
    headerArray [] ["products".data] =
      .ok (setItem [] "products".data (.arr [.table []]),
           [.key "products".data, .idx 0]) ∧
    headerArray [("products".data, .arr [.table prodT1])] ["products".data] =
      .ok (setItem [("products".data, .arr [.table prodT1])] "products".data
            (.arr ([.table prodT1] ++ [.table []])),
           [.key "products".data, .idx 1]) := by
  constructor
  · exact claim4_array_of_tables.1 [] "products".data rfl
  · exact claim4_array_of_tables.2.1 [("products".data, .arr [.table prodT1])]
      "products".data [.table prodT1] rfl

/-- Claim C6: integer decoding strips underscores first (decoding any
token equals decoding its underscore-free form), an optional sign followed
by a `0x`/`0o`/`0b` prefix selects base 16/8/2 over the remaining unsigned
digits with the sign applied afterward (the six concrete round-trips), and
a plain decimal digit string in int64 range decodes as base-10. -/
theorem claim6_int_decoding :
    parseIntToken "1_000".data = some 1000 ∧
    parseIntToken "0xDEADBEEF".data = some 3735928559 ∧
    parseIntToken "0o755".data = some 493 ∧
    parseIntToken "0b1010".data = some 10 ∧
    parseIntToken "-0x10".data = some (-16) ∧
    parseIntToken "+0o10".data = some 8 ∧
    (∀ s : GoStr, parseIntToken s = parseIntToken (s.filter (· ≠ '_'))) ∧
    (∀ ds : GoStr, ds ≠ [] → (∀ c ∈ ds, (digitVal? 10 c).isSome) →
      digitsVal 10 ds < 2 ^ 63 →
      parseIntToken ds = some (digitsVal 10 ds)) := by
  refine ⟨by decide, by decide, by decide, by decide, by decide, by decide, ?_, ?_⟩
  · intro s
    have hff : (s.filter (· ≠ '_')).filter (· ≠ '_') = s.filter (· ≠ '_') := by
      simp [List.filter_filter]
    unfold parseIntToken
    rw [hff]
  · intro ds hne hd hlt
    have hfil : ds.filter (· ≠ '_') = ds := filter_underscore_eq hd (by decide)
    have h1 : startsWith ds ['0', 'x'] = false := startsWith_two_false '0' 'x' hd (by decide)
    have h2 : startsWith ds ['-', '0', 'x'] = false :=
      startsWith_sign_false ['0', 'x'] '-' hne hd (by decide)
    have h3 : startsWith ds ['+', '0', 'x'] = false :=
      startsWith_sign_false ['0', 'x'] '+' hne hd (by decide)
    have h4 : startsWith ds ['0', 'o'] = false := startsWith_two_false '0' 'o' hd (by decide)
    have h5 : startsWith ds ['-', '0', 'o'] = false :=
      startsWith_sign_false ['0', 'o'] '-' hne hd (by decide)
    have h6 : startsWith ds ['+', '0', 'o'] = false :=
      startsWith_sign_false ['0', 'o'] '+' hne hd (by decide)
    have h7 : startsWith ds ['0', 'b'] = false := startsWith_two_false '0' 'b' hd (by decide)
    have h8 : startsWith ds ['-', '0', 'b'] = false :=
      startsWith_sign_false ['0', 'b'] '-' hne hd (by decide)
    have h9 : startsWith ds ['+', '0', 'b'] = false :=
      startsWith_sign_false ['0', 'b'] '+' hne hd (by decide)
    unfold parseIntToken
    rw [hfil]
    unfold parseIntTokenStripped
    simp only [h1, h2, h3, h4, h5, h6, h7, h8, h9]
    norm_num
    cases ds with
    | nil => exact absurd rfl hne
    | cons c rest =>
      have hc := hd c (List.mem_cons_self ..)
      have hcm : c ≠ '-' := digit_ne hc '-' (by decide)
      have hcp : c ≠ '+' := digit_ne hc '+' (by decide)
      have hlt64 : digitsVal 10 (c :: rest) < 2 ^ 64 := hlt.trans (by norm_num)
      have hgu := goParseUint_eq 10 (c :: rest) hne hd hlt64
      simp only [goParseInt64]
      rw [if_neg (show ¬(c = '-' ∨ c = '+') from fun h => h.elim hcm hcp)]
      simp only [hgu]
      rw [if_neg (show ¬(c ≠ '-' ∧ 2 ^ 63 ≤ digitsVal 10 (c :: rest)) from
            fun h => absurd h.2 (Nat.not_le.mpr hlt)),
          if_neg (show ¬(c = '-' ∧ 2 ^ 63 < digitsVal 10 (c :: rest)) from fun h => hcm h.1),
          if_neg hcm]

/-- Witness for C6 at the concrete decimal token `42` and the
underscored token `1_2`. -/
theorem claim6_witness :
    parseIntToken "42".data = some (digitsVal 10 "42".data) ∧
    parseIntToken "1_2".data = parseIntToken "12".data := by
  constructor
  · exact claim6_int_decoding.2.2.2.2.2.2.2 "42".data (by decide) (by decide) (by decide)
  · exact claim6_int_decoding.2.2.2.2.2.2.1 "1_2".data

/-- Claim C9: a base-prefixed literal whose digits denote a value of at
most `2^64 - 1` decodes without error, and the stored payload is the
digits' value reduced into int64 range modulo `2^64` (`toInt64`). -/
theorem claim9_prefixed_int_mod :
    (∀ ds : GoStr, ds ≠ [] → (∀ c ∈ ds, (digitVal? 16 c).isSome) →
      digitsVal 16 ds < 2 ^ 64 →
      parseIntToken ('0' :: 'x' :: ds) = some (toInt64 (digitsVal 16 ds))) ∧
    (∀ ds : GoStr, ds ≠ [] → (∀ c ∈ ds, (digitVal? 8 c).isSome) →
      digitsVal 8 ds < 2 ^ 64 →
      parseIntToken ('0' :: 'o' :: ds) = some (toInt64 (digitsVal 8 ds))) ∧
    (∀ ds : GoStr, ds ≠ [] → (∀ c ∈ ds, (digitVal? 2 c).isSome) →
      digitsVal 2 ds < 2 ^ 64 →
      parseIntToken ('0' :: 'b' :: ds) = some (toInt64 (digitsVal 2 ds))) := by
  refine ⟨?_, ?_, ?_⟩
  · intro ds hne hd hlt
    have e1 : parseIntToken ('0' :: 'x' :: ds) =
        parseIntTokenStripped (('0' :: 'x' :: ds).filter (· ≠ '_')) := rfl
    have e2 : ('0' :: 'x' :: ds).filter (· ≠ '_') = '0' :: 'x' :: ds.filter (· ≠ '_') := rfl
    rw [e1, e2, filter_underscore_eq hd (by decide)]
    unfold parseIntTokenStripped
    rw [if_pos (Or.inl (show startsWith ('0' :: 'x' :: ds) ['0', 'x'] = true from rfl))]
    exact intWithBase_prefix 16 'x' ds hne hd hlt
  · intro ds hne hd hlt
    have e1 : parseIntToken ('0' :: 'o' :: ds) =
        parseIntTokenStripped (('0' :: 'o' :: ds).filter (· ≠ '_')) := rfl
    have e2 : ('0' :: 'o' :: ds).filter (· ≠ '_') = '0' :: 'o' :: ds.filter (· ≠ '_') := rfl
    rw [e1, e2, filter_underscore_eq hd (by decide)]
    unfold parseIntTokenStripped
    rw [if_neg (show ¬(startsWith ('0' :: 'o' :: ds) ['0', 'x'] = true ∨
          startsWith ('0' :: 'o' :: ds) ['-', '0', 'x'] = true ∨
          startsWith ('0' :: 'o' :: ds) ['+', '0', 'x'] = true) by
        rintro (h | h | h) <;> exact Bool.noConfusion h),
      if_pos (Or.inl (show startsWith ('0' :: 'o' :: ds) ['0', 'o'] = true from rfl))]
    exact intWithBase_prefix 8 'o' ds hne hd hlt
  · intro ds hne hd hlt
    have e1 : parseIntToken ('0' :: 'b' :: ds) =
        parseIntTokenStripped (('0' :: 'b' :: ds).filter (· ≠ '_')) := rfl
    have e2 : ('0' :: 'b' :: ds).filter (· ≠ '_') = '0' :: 'b' :: ds.filter (· ≠ '_') := rfl
    rw [e1, e2, filter_underscore_eq hd (by decide)]
    unfold parseIntTokenStripped
    rw [if_neg (show ¬(startsWith ('0' :: 'b' :: ds) ['0', 'x'] = true ∨
          startsWith ('0' :: 'b' :: ds) ['-', '0', 'x'] = true ∨
          startsWith ('0' :: 'b' :: ds) ['+', '0', 'x'] = true) by
        rintro (h | h | h) <;> exact Bool.noConfusion h),
      if_neg (show ¬(startsWith ('0' :: 'b' :: ds) ['0', 'o'] = true ∨
          startsWith ('0' :: 'b' :: ds) ['-', '0', 'o'] = true ∨
          startsWith ('0' :: 'b' :: ds) ['+', '0', 'o'] = true) by
        rintro (h | h | h) <;> exact Bool.noConfusion h),
      if_pos (Or.inl (show startsWith ('0' :: 'b' :: ds) ['0', 'b'] = true from rfl))]
    exact intWithBase_prefix 2 'b' ds hne hd hlt

/-- Witness for C9: all sixteen hex digits set — `0xFFFFFFFFFFFFFFFF`
decodes without error to `-1`. -/
theorem claim9_witness :
    parseIntToken "0xFFFFFFFFFFFFFFFF".data = some (-1) := by
  have h := claim9_prefixed_int_mod.1 "FFFFFFFFFFFFFFFF".data
    (by decide) (by decide) (by decide)
  rw [show ('0' :: 'x' :: "FFFFFFFFFFFFFFFF".data) = "0xFFFFFFFFFFFFFFFF".data from rfl] at h
  rw [h]
  decide

end AqToml
